import Mathlib

/-!
# Verification of the pake rule engine

A shallow embedding of the core of the `pake` incremental build tool
(`src/pake/registry.py`, `src/pake/rules.py`, `src/pake/exceptions.py`)
together with proofs about its registry, rule resolution, staleness
decision, and recursive update driver.

Modelling conventions:
* Python dicts are association lists `List (String × α)` in insertion
  order with unique keys; `dictInsert` replaces in place like a dict
  assignment, `List.lookup` is `dict[key]` / `dict.get(key)`.
* Python `None` and JSON-able results are modelled by `Value`.
* The filesystem together with `hash_file` (rules.py lines 61-81) is
  abstracted as an oracle `FS : String → Option String` mapping a
  canonical path to its content hash, `none` meaning the path does not
  exist (`FileNotFoundError`).  The sha256 internals are outside the
  model; everything the engine observes of a file is its hash.
* Recipes are Lean functions returning an explicit outcome: a value,
  a deliberately raised `RuleError`, or any other exception.
-/

namespace Pake


/-! ## Definitions: the shallow embedding -/
/-- JSON-able results plus Python `None` (rules.py docstring lines 38-40). -/
inductive Value where
  | null : Value
  | str : String → Value
  deriving DecidableEq, Repr

/-- Rule priorities.  The source uses floats, but the only values that occur
are `float("-inf")` (AlwaysRule), `0` (VirtualRule), `10` (TargetRule),
`20` (PatternRule) and `float("inf")` (FallbackRule); we embed the order. -/
inductive Prio where
  | negInf : Prio
  | fin : Nat → Prio
  | posInf : Prio
  deriving DecidableEq, Repr

/-- Strict order on priorities (`<` on the floats actually used). -/
def Prio.ltB : Prio → Prio → Bool
  | .negInf, .negInf => false
  | .negInf, _ => true
  | .fin _, .negInf => false
  | .fin a, .fin b => a < b
  | .fin _, .posInf => true
  | .posInf, _ => false

/-- Non-strict order on priorities. -/
def Prio.leB (a b : Prio) : Bool := !(Prio.ltB b a)

/-! ## Dictionaries (Python dict as insertion-ordered association list) -/

/-- `inputs` dictionaries: `{dep: result}` in insertion order. -/
abbrev Inputs := List (String × Value)

/-- A state record `{"inputs": ..., "result": ...}` (registry.py lines 164-169). -/
structure Rec where
  inputs : Inputs
  result : Value
  deriving DecidableEq, Repr

/-- `state.data`: target → record. -/
abbrev StateData := List (String × Rec)

/-- Python `d[k] = v`: replace in place if the key exists, else append. -/
def dictInsert {α : Type} (d : List (String × α)) (k : String) (v : α) :
    List (String × α) :=
  if (d.lookup k).isSome then
    d.map (fun p => if p.1 = k then (k, v) else p)
  else
    d ++ [(k, v)]

/-- Python `d1 == d2` on dicts: same keys with equal values (order ignored). -/
def dictEqB (a b : Inputs) : Bool :=
  a.all (fun p => b.lookup p.1 == some p.2) &&
  b.all (fun p => a.lookup p.1 == some p.2)

/-- Python `set(a.keys()) == set(b.keys())`. -/
def sameKeySet (a b : Inputs) : Bool :=
  (a.map Prod.fst).all (fun k => (b.map Prod.fst).contains k) &&
  (b.map Prod.fst).all (fun k => (a.map Prod.fst).contains k)

/-! ## Path normalization (rules.py lines 84-97)

`os.path.relpath` is a purely lexical computation; we model paths as
`/`-separated strings and the working directory as its (already
normalized, absolute) segment list `cwd`.  The string helpers are
written by structural recursion on the character list so that concrete
runs reduce definitionally. -/

/-- Split a character list into `/`-separated segments
(`"a/b".splitOn "/" = ["a", "b"]`, `"".splitOn "/" = [""]`). -/
def splitOnSlash : List Char → List String
  | [] => [""]
  | c :: cs =>
    if c = '/' then "" :: splitOnSlash cs
    else
      match splitOnSlash cs with
      | [] => [String.mk [c]]
      | s :: rest => String.mk (c :: s.data) :: rest

/-- Join strings with a separator (`str.join` / `os.sep.join`). -/
def joinWith (sep : String) : List String → String
  | [] => ""
  | [x] => x
  | x :: xs => x ++ sep ++ joinWith sep xs

/-- Whether a path string starts with `"../"`. -/
def startsWithDotDotSlash (s : String) : Bool :=
  match s.data with
  | '.' :: '.' :: '/' :: _ => true
  | _ => false

/-- Whether a path string is absolute (starts with `/`). -/
def isAbsPath (s : String) : Bool :=
  match s.data with
  | '/' :: _ => true
  | _ => false

/-- Segment-wise normalization of an absolute path (`os.path.normpath`
after `os.path.join`): drop empty and `.` segments, let `..` pop the last
segment (clamping at the root as POSIX does for absolute paths). -/
def normAbs (segs : List String) : List String :=
  segs.foldl
    (fun acc seg =>
      if seg = "" || seg = "." then acc
      else if seg = ".." then acc.dropLast
      else acc ++ [seg])
    []

/-- `os.path.abspath` of `p` as segments, relative to working directory `cwd`. -/
def abspathSegs (cwd : List String) (p : String) : List String :=
  if isAbsPath p then normAbs (splitOnSlash p.data)
  else normAbs (normAbs cwd ++ splitOnSlash p.data)

/-- Length of the common prefix of two segment lists. -/
def commonPrefixLen : List String → List String → Nat
  | a :: as, b :: bs => if a = b then commonPrefixLen as bs + 1 else 0
  | _, _ => 0

/-- `os.path.relpath(p)` with working directory `cwd`: climb out of the
non-shared part of `cwd` with `..` segments, then descend. -/
def relpath (cwd : List String) (p : String) : String :=
  let cwdN := normAbs cwd
  let tgt := abspathSegs cwd p
  let common := commonPrefixLen cwdN tgt
  let segs := List.replicate (cwdN.length - common) ".." ++ tgt.drop common
  if segs = [] then "." else joinWith "/" segs

/-- `normalize_path` (rules.py lines 84-97): normalize to `./path`, or
raise `ValueError` (modelled as `Except.error` with the message). -/
def normalizePath (cwd : List String) (filepath : String) : Except String String :=
  if filepath = "" then .error "cannot be empty string"
  else if filepath.data.contains (Char.ofNat 0) then .error "may not contain null bytes"
  else
    let path := relpath cwd filepath
    if path = ".." || startsWithDotDotSlash path then
      .error "cannot be outside current directory"
    else .ok ("./" ++ path)

/-! ## Registry state operations (registry.py lines 145-176) -/

/-- `Registry.needs_update` (registry.py lines 145-162): compare `inputs`
to the previously recorded inputs for `target`; return a reason string if
the target needs updating, else `none`.  The `assert changed` on line 161
cannot fire (equal dicts were excluded on line 154) and is not modelled. -/
def registryNeedsUpdate (st : StateData) (target : String) (inputs : Inputs) :
    Option String :=
  match st.lookup target with
  | none => some "it is not present in the cache"
  | some record =>
    if dictEqB record.inputs inputs then none
    else if (inputs.lookup "always").isSome then some "it depends on the always target"
    else if !(sameKeySet record.inputs inputs) then some "the list of dependents has changed"
    else
      let changed := (inputs.map Prod.fst).filter
        (fun dep => !(inputs.lookup dep == record.inputs.lookup dep))
      some ("its dependents changed: " ++ joinWith ", " changed)

/-- `Registry.save_result` (registry.py lines 164-170). -/
def saveResult (st : StateData) (target : String) (inputs : Inputs)
    (result : Value) : StateData :=
  dictInsert st target ⟨inputs, result⟩

/-- `Registry.get_result` (registry.py lines 172-176): the most recent
result for `target`, or Python `None` if not previously built. -/
def getResult (st : StateData) (target : String) : Value :=
  match st.lookup target with
  | some record => record.result
  | none => Value.null

/-! ## Rules (rules.py lines 100-379)

The four rule variants the claims exercise; `PatternRule` (regex based)
is not modelled.  Recipes return an explicit outcome. -/

/-- The filesystem/hash oracle: canonical path → content hash,
`none` = `FileNotFoundError`. -/
abbrev FS := String → Option String

/-- Outcome of calling a recipe or a rule's `run`. -/
inductive RunOut where
  | ok : Value → RunOut
  | ruleError : String → RunOut
  | exc : String → RunOut
  deriving Repr

/-- A virtual rule's recipe: called with the `deps` results dict. -/
abbrev VirtRecipe := Inputs → RunOut

/-- A target-file rule's recipe: called with the target path and deps dict;
it transforms the filesystem, or raises. -/
abbrev FileRecipe := String → Inputs → FS → Except (String ⊕ String) FS

/-- The rule variants (AlwaysRule, FallbackRule, VirtualRule, TargetRule).
For `targetR`, `name` is the raw declared filepath (`Rule.__init__`,
rules.py line 103) and `filepath` is the canonical form set on line 317
— `none` while unset, i.e. for a partially initialized rule whose
normalization failed (see `TargetRule_init`). -/
inductive RuleT where
  | alwaysR : RuleT
  | fallbackR : RuleT
  | virt (name : String) (deps : List String) (recipe : VirtRecipe) : RuleT
  | targetR (name : String) (filepath : Option String) (deps : List String)
      (recipe : FileRecipe) : RuleT

/-- `PRIORITY` class attributes (rules.py lines 181, 210, 255, 311). -/
def rulePrio : RuleT → Prio
  | .alwaysR => .negInf
  | .fallbackR => .posInf
  | .virt _ _ _ => .fin 0
  | .targetR _ _ _ _ => .fin 10

/-- Match tokens: a plain string for always/virtual/target rules, and the
`(canonical-or-raw, error-or-none)` pair of `FallbackRule.match`. -/
inductive Tok where
  | mstr : String → Tok
  | mfall : String → Option String → Tok
  deriving DecidableEq, Repr

/-- `match(target)` for each variant (rules.py lines 189-190, 218-224,
264-266, 322-327).  A partially initialized target rule has no
`filepath` attribute and cannot match. -/
def ruleMatch (cwd : List String) : RuleT → String → Option Tok
  | .alwaysR, t => if t = "always" then some (.mstr t) else none
  | .fallbackR, t =>
    match normalizePath cwd t with
    | .ok p => some (.mfall p none)
    | .error e => some (.mfall t (some e))
  | .virt name _ _, t => if name = t then some (.mstr t) else none
  | .targetR _ fp _ _, t =>
    match fp with
    | none => none
    | some fp =>
      match normalizePath cwd t with
      | .error _ => none
      | .ok p => if fp = p then some (.mstr p) else none

/-- `target(match)` for each variant (rules.py lines 192-193, 226-228,
268-269, 329-330): the canonical target of a matched token. -/
def ruleTarget : Tok → String
  | .mstr s => s
  | .mfall t _ => t

/-- `deps(match)` for each variant (rules.py lines 195-196, 230-231,
271-272, 332-333). -/
def ruleDeps : RuleT → List String
  | .alwaysR => []
  | .fallbackR => []
  | .virt _ ds _ => ds
  | .targetR _ _ ds _ => ds

/-- `needs_update(match, result)` for each variant (rules.py lines
198-199, 233-235, 274-275 and `FileRule.needs_update` lines 286-290). -/
def ruleNeedsSelfUpdate (fs : FS) : RuleT → Tok → Value → Bool
  | .alwaysR, _, _ => true
  | .fallbackR, _, _ => true
  | .virt _ _ _, _, _ => false
  | .targetR _ _ _ _, tok, result =>
    match fs (ruleTarget tok) with
    | none => true
    | some h => !(Value.str h == result)

/-! ## Run, errors and the update driver (rules.py lines 57-58, 100-174,
201-202, 237-244, 277-278, 292-303; exceptions.py lines 11-21) -/

/-- The mutable world threaded through an update: the state store, the
filesystem oracle, and a counter producing the fresh values of
`unique()` (rules.py lines 57-58; `uuid4` modelled as a counter). -/
structure World where
  st : StateData
  fs : FS
  ctr : Nat

/-- `unique()` (rules.py lines 57-58): a fresh string per call. -/
def uniqueVal (n : Nat) : Value := Value.str ("unique:" ++ toString n)

/-- A Python repr of a string as interpolated by `f"{target!r}"`
(modelled without escape handling). -/
def pyRepr (s : String) : String := "'" ++ s ++ "'"

/-- `run(match, deps)` for each variant (rules.py lines 201-202 for
always, 237-244 for fallback, 277-278 for virtual, and
`FileRule.run` lines 292-303 for target rules). -/
def ruleRun (r : RuleT) (tok : Tok) (inputs : Inputs) (w : World) :
    World × RunOut :=
  match r with
  | .alwaysR => ({ w with ctr := w.ctr + 1 }, .ok (uniqueVal w.ctr))
  | .fallbackR =>
    match tok with
    | .mfall target (some e) =>
      (w, .ruleError (pyRepr target ++ " is not a valid filepath (" ++ e ++
        ") and no rule by that name exists"))
    | .mfall target none =>
      match w.fs target with
      | some h => (w, .ok (Value.str h))
      | none => (w, .ruleError "File does not exist and there is no rule to create it")
    | .mstr _ => (w, .exc "unreachable: fallback token is always a pair")
  | .virt _ _ recipe => (w, recipe inputs)
  | .targetR _ _ _ recipe =>
    let target := ruleTarget tok
    match recipe target inputs w.fs with
    | .error (.inl m) => (w, .ruleError m)
    | .error (.inr m) => (w, .exc m)
    | .ok fs' =>
      match fs' target with
      | some h => ({ w with fs := fs' }, .ok (Value.str h))
      | none => ({ w with fs := fs' },
          .ruleError "Recipe ran successfully but did not create the file")

/-- `BuildError` (exceptions.py lines 11-21): the chain of targets that
led to the failure, the message, and the `__cause__` attached by
`raise ... from e` (`none` models `raise ... from None`). -/
structure BErr where
  chain : List String
  msg : String
  cause : Option String
  deriving DecidableEq, Repr

/-- `Registry.resolve` (registry.py lines 130-139): walk the rules in
list order, return the first whose `match` is non-None. -/
def resolveReg (cwd : List String) : List RuleT → String → Option (RuleT × Tok)
  | [], _ => none
  | r :: rs, t =>
    match ruleMatch cwd r t with
    | some tok => some (r, tok)
    | none => resolveReg cwd rs t

/-- Result of `Rule.update`: the log of targets whose recipe ran, the
final world (mutations persist even when an exception propagates), and
either the returned result or the raised `BuildError`. -/
abbrev UpdOut := List String × World × Except BErr Value

/-- Result of the dependency loop: run log, final world, and either the
collected `inputs` dict or the propagated `BuildError`. -/
abbrev DepOut := List String × World × Except BErr Inputs

/-- The dependency loop of `Rule.update` (rules.py lines 148-153):
update each dep in declared order with `f`, collecting
`inputs[dep] = result` keyed by the verbatim dep string. -/
def updateDepsAux (f : World → String → UpdOut) :
    List String → World → DepOut
  | [], w => ([], w, .ok [])
  | d :: ds, w =>
    match f w d with
    | (l1, w1, .error e) => (l1, w1, .error e)
    | (l1, w1, .ok v) =>
      match updateDepsAux f ds w1 with
      | (l2, w2, .error e) => (l1 ++ l2, w2, .error e)
      | (l2, w2, .ok inps) => (l1 ++ l2, w2, .ok ((d, v) :: inps))

/-- `Rule.update` (rules.py lines 132-174) together with the resolution
step of `Registry.update` (registry.py lines 116-120), on fuel.  The
`deps()` call cannot fail for the modelled variants, so the
"Failed to determine dependencies" wrap (lines 142-146) has no error
case here.  `force` is threaded to recursive calls exactly as on line
153. -/
def update (cwd : List String) (reg : List RuleT) :
    Nat → World → String → Bool → List String → UpdOut
  | 0, w, _, _, _ => ([], w, .error ⟨[], "out of fuel", none⟩)
  | fuel + 1, w, target, force, chain =>
    match resolveReg cwd reg target with
    | none => ([], w, .error ⟨chain, "No rules matched (not even fallback rule)", none⟩)
    | some (r, tok) =>
      let tgt := ruleTarget tok
      if tgt ∈ chain then
        ([], w, .error ⟨chain ++ [tgt], "Dependency cycle detected", none⟩)
      else
        let chain' := chain ++ [tgt]
        match updateDepsAux (fun w' d => update cwd reg fuel w' d force chain')
            (ruleDeps r) w with
        | (dlog, w1, .error e) => (dlog, w1, .error e)
        | (dlog, w1, .ok inputs) =>
          let needs := force
            || (registryNeedsUpdate w1.st tgt inputs).isSome
            || ruleNeedsSelfUpdate w1.fs r tok (getResult w1.st tgt)
          if needs then
            match ruleRun r tok inputs w1 with
            | (w2, .ok result) =>
              let st' := saveResult w2.st tgt inputs result
              (dlog ++ [tgt], { w2 with st := st' }, .ok (getResult st' tgt))
            | (w2, .ruleError m) => (dlog, w2, .error ⟨chain', m, none⟩)
            | (w2, .exc m) => (dlog, w2, .error ⟨chain', "Recipe raised exception", some m⟩)
          else
            (dlog, w1, .ok (getResult w1.st tgt))

/-! ## Registry construction (registry.py lines 73-85, 141-143) -/

/-- `bisect.insort_right` keyed by `rule.PRIORITY` (registry.py lines
141-143): insert after all rules of priority ≤ the new rule's. -/
def insortRight : List RuleT → RuleT → List RuleT
  | [], x => [x]
  | y :: ys, x =>
    if Prio.ltB (rulePrio x) (rulePrio y) then x :: y :: ys
    else y :: insortRight ys x

/-- Modelled from the spec: the *default-fallback-clean* rule is called
by `Registry.__init__` (registry.py line 82, `rules.clean_rule`) but its
definition is missing from the included sources; the spec (§4.4, §9)
calls it optional scaffolding registered between *always* and
*fallback*.  Modelled as a do-nothing virtual rule named `clean`. -/
def clean_rule : RuleT := RuleT.virt "clean" [] (fun _ => RunOut.ok Value.null)

/-- `Registry.__init__` (registry.py lines 77-85): start from an empty
rule list and register the implicit rules in order: `AlwaysRule`,
`clean_rule`, `FallbackRule`. -/
def registryInit : List RuleT :=
  insortRight (insortRight (insortRight [] RuleT.alwaysR) clean_rule) RuleT.fallbackR

/-- `TargetRule.__init__` (rules.py lines 313-320): `super().__init__`
registers the rule first (via `Rule.__init__`, lines 100-104, with
`name` the raw filepath); only then is the filepath normalized, so a
`ValueError` from normalization leaves the partially initialized rule
(no `filepath` attribute) in the registry.  Returns the mutated rule
list and either the constructed rule or the `ValueError` message. -/
def TargetRule_init (cwd : List String) (reg : List RuleT) (filepath : String)
    (deps : List String) (recipe : FileRecipe) :
    List RuleT × Except String RuleT :=
  match normalizePath cwd filepath with
  | .ok p =>
    let rule := RuleT.targetR filepath (some p) deps recipe
    (insortRight reg rule, .ok rule)
  | .error e =>
    let rule := RuleT.targetR filepath none deps recipe
    (insortRight reg rule, .error ("Invalid filepath for target rule: " ++ e))

/-- The rule list sortedness invariant (spec §3.5): non-decreasing
priority in list order. -/
def SortedRules (l : List RuleT) : Prop :=
  l.Pairwise (fun a b => Prio.leB (rulePrio a) (rulePrio b) = true)

/-! ## The staleness decision (C3) -/

/-- The keys of an inputs dict. -/
def keysOf (d : Inputs) : List String := d.map Prod.fst

/-- Modelled from the claim's (spec §4.4) wording, with the conditions in
the order the claim states them: no prior record; `always` a key of the
new inputs; key sets differ; keys whose values differ; else up to date. -/
def needsUpdateSpecClaim (st : StateData) (target : String) (inputs : Inputs) :
    Option String :=
  match st.lookup target with
  | none => some "it is not present in the cache"
  | some record =>
    if (keysOf inputs).contains "always" then some "it depends on the always target"
    else if !(sameKeySet record.inputs inputs) then some "the list of dependents has changed"
    else
      match (keysOf inputs).filter
          (fun k => !(inputs.lookup k == record.inputs.lookup k)) with
      | [] => none
      | changed => some ("its dependents changed: " ++ joinWith ", " changed)

/-- The claim amended as the code forces: an exact match of old and new
inputs is up to date *before* any other test, so a target cached with
`always` among its recorded inputs reports up to date when handed back
the identical inputs dict; only differing inputs reach the `always`,
key-set and changed-keys reasons, in that order. -/
def needsUpdateSpecAmended (st : StateData) (target : String) (inputs : Inputs) :
    Option String :=
  match st.lookup target with
  | none => some "it is not present in the cache"
  | some record =>
    if dictEqB record.inputs inputs then none
    else if (keysOf inputs).contains "always" then some "it depends on the always target"
    else if sameKeySet record.inputs inputs then
      some ("its dependents changed: " ++ joinWith ", "
        ((keysOf inputs).filter (fun k => !(inputs.lookup k == record.inputs.lookup k))))
    else some "the list of dependents has changed"

/-- The state and inputs on which the claimed ordering diverges from the
code: `t` is cached with inputs `{"always": "x"}` and is handed the
identical inputs dict. -/
def c3State : StateData := [("t", ⟨[("always", Value.str "x")], Value.null⟩)]

/-- The new inputs for the divergence: identical to the cached ones and
containing `always` as a key. -/
def c3Inputs : Inputs := [("always", Value.str "x")]

/-! ## Rebuild modes (C2)

`Registry.update` (registry.py line 120) invokes
`rule.update(match, rebuild=rebuild)`, but `Rule.update` (rules.py line
132) is declared `def update(self, match, force=False, _target_chain=())`
— there is no `rebuild` parameter and no `**kwargs`, so the call raises
`TypeError` for every target and every mode.  Moreover `force` is passed
unchanged to every recursive dep update (rules.py line 153), so even
mapping `rebuild` onto `force` would force the whole subtree: the
non-propagating `shallow` mode does not exist in `Rule.update`. -/

/-- The parameter names of `Rule.update` (rules.py line 132). -/
def ruleUpdateParamNames : List String := ["self", "match", "force", "_target_chain"]

/-- The keyword arguments `Registry.update` passes to `rule.update`
(registry.py line 120), beyond the positional `match`. -/
def registryUpdateCallKeywords : List String := ["rebuild"]

/-- Python keyword binding for a function without `**kwargs`: every
keyword argument name must be a declared parameter name, otherwise the
call raises `TypeError: unexpected keyword argument`. -/
def bindsOk (params kwargs : List String) : Bool :=
  kwargs.all (fun k => params.contains k)

/-- The dependency of the C2 demonstration registry: a cached virtual
rule with no deps. -/
def c2RuleB : RuleT := RuleT.virt "b" [] (fun _ => RunOut.ok (Value.str "rb"))

/-- The top-level target of the C2 demonstration registry: a cached
virtual rule depending on `b`. -/
def c2RuleA : RuleT := RuleT.virt "a" ["b"] (fun _ => RunOut.ok (Value.str "ra"))

/-- A registry in which both `a` and its dep `b` are user virtual rules. -/
def c2Reg : List RuleT := [RuleT.alwaysR, c2RuleA, c2RuleB, RuleT.fallbackR]

/-- A world in which both `a` and `b` are cached up to date. -/
def c2World : World :=
  ⟨[("b", ⟨[], Value.str "rb"⟩), ("a", ⟨[("b", Value.str "rb")], Value.str "ra"⟩)],
   fun _ => none, 0⟩

/-! ## Cycle detection (C4)

An arbitrary cyclic rule set `R₁ → R₂ → … → Rₙ → R₁` of user virtual
rules (arbitrary names and recipes), in a registry with the implicit
always and fallback rules in their places. -/

/-- The virtual rules of the cycle: each name depends on the next, the
last depends on `first`. -/
def chainVirts (first : String) (rcp : String → VirtRecipe) : List String → List RuleT
  | [] => []
  | [x] => [RuleT.virt x [first] (rcp x)]
  | x :: y :: rest => RuleT.virt x [y] (rcp x) :: chainVirts first rcp (y :: rest)

/-- The dependency assigned to a cycle member whose successors are `xs`. -/
def cnext (first : String) : List String → String
  | [] => first
  | y :: _ => y

/-- The registry of the cyclic rule set (sorted order: always, the
user virtual rules, fallback). -/
def chainReg (first : String) (rcp : String → VirtRecipe) (names : List String) :
    List RuleT :=
  RuleT.alwaysR :: (chainVirts first rcp names ++ [RuleT.fallbackR])

/-- The virtual rule of the C6 witness, declaring its dependency with
the non-canonical spelling `x//y/../z` (canonical form `./x/z`). -/
def c6Rule : RuleT := RuleT.virt "v" ["x//y/../z"] (fun _ => RunOut.ok (Value.str "r"))

/-- The registry of the C6 witness. -/
def c6Reg : List RuleT := [RuleT.alwaysR, c6Rule, RuleT.fallbackR]

/-- The filesystem of the C6 witness: only `./x/z` exists, hash `h1`. -/
def c6FS : FS := fun s => if s = "./x/z" then some "h1" else none


/-! ## Theorems -/
theorem Prio.ltB_irrefl (a : Prio) : Prio.ltB a a = false := by
  cases a <;> simp [Prio.ltB]

theorem Prio.ltB_negInf (a : Prio) : Prio.ltB a .negInf = false := by
  cases a <;> simp [Prio.ltB]

theorem Prio.ltB_posInf_iff (a : Prio) : Prio.ltB a .posInf = true ↔ a ≠ .posInf := by
  cases a <;> simp [Prio.ltB]

theorem Prio.leB_trans {a b c : Prio} (h1 : Prio.leB a b = true)
    (h2 : Prio.leB b c = true) : Prio.leB a c = true := by
  cases a <;> cases b <;> cases c <;> simp_all [Prio.leB, Prio.ltB] <;> omega

theorem Prio.ltB_leB {a b : Prio} (h : Prio.ltB a b = true) : Prio.leB a b = true := by
  cases a <;> cases b <;> simp_all [Prio.leB, Prio.ltB] <;> omega

theorem Prio.not_ltB_leB {a b : Prio} (h : Prio.ltB a b = false) : Prio.leB b a = true := by
  simpa [Prio.leB] using h

/-! ## Properties of `insort_right` registration -/

theorem insortRight_ne_nil (l : List RuleT) (x : RuleT) : insortRight l x ≠ [] := by
  cases l with
  | nil => simp [insortRight]
  | cons y ys =>
    simp only [insortRight]
    split <;> simp

theorem mem_insortRight_of_mem {l : List RuleT} {x y : RuleT} (h : y ∈ l) :
    y ∈ insortRight l x := by
  induction l with
  | nil => cases h
  | cons z zs ih =>
    simp only [insortRight]
    split
    · exact List.mem_cons_of_mem _ h
    · rcases List.mem_cons.1 h with h | h
      · exact h ▸ List.mem_cons_self _ _
      · exact List.mem_cons_of_mem _ (ih h)

theorem self_mem_insortRight (l : List RuleT) (x : RuleT) : x ∈ insortRight l x := by
  induction l with
  | nil => simp [insortRight]
  | cons z zs ih =>
    simp only [insortRight]
    split
    · exact List.mem_cons_self _ _
    · exact List.mem_cons_of_mem _ ih

/-- The head survives insertion whenever the new rule does not sort
strictly before it; in particular `AlwaysRule` (priority −∞) is never
displaced from the front. -/
theorem insortRight_head? {l : List RuleT} {x h : RuleT}
    (hh : l.head? = some h)
    (hlt : Prio.ltB (rulePrio x) (rulePrio h) = false) :
    (insortRight l x).head? = some h := by
  cases l with
  | nil => cases hh
  | cons y ys =>
    simp only [List.head?_cons, Option.some.injEq] at hh
    subst hh
    simp [insortRight, hlt]

/-- The last element survives insertion whenever the new rule sorts
strictly before it; in particular `FallbackRule` (priority +∞) stays
last under registration of any finite-priority rule. -/
theorem insortRight_getLast? {l : List RuleT} {x f : RuleT}
    (hl : l.getLast? = some f)
    (hx : Prio.ltB (rulePrio x) (rulePrio f) = true) :
    (insortRight l x).getLast? = some f := by
  induction l with
  | nil => cases hl
  | cons y ys ih =>
    cases ys with
    | nil =>
      simp only [List.getLast?_singleton, Option.some.injEq] at hl
      subst hl
      simp [insortRight, hx]
    | cons z zs =>
      rw [List.getLast?_cons_cons] at hl
      by_cases hcase : Prio.ltB (rulePrio x) (rulePrio y) = true
      · rw [insortRight, if_pos hcase]
        rw [List.getLast?_cons_cons, List.getLast?_cons_cons]
        exact hl
      · rw [insortRight, if_neg hcase]
        have hne := insortRight_ne_nil (z :: zs) x
        have := ih hl
        cases hrec : insortRight (z :: zs) x with
        | nil => exact absurd hrec hne
        | cons a as =>
          rw [hrec] at this
          rw [List.getLast?_cons_cons]
          exact this

theorem Prio.ltB_leB_trans {a b c : Prio} (h1 : Prio.ltB a b = true)
    (h2 : Prio.leB b c = true) : Prio.ltB a c = true := by
  cases a <;> cases b <;> cases c <;> simp_all [Prio.leB, Prio.ltB] <;> omega

theorem mem_of_mem_insortRight {l : List RuleT} {x z : RuleT}
    (h : z ∈ insortRight l x) : z = x ∨ z ∈ l := by
  induction l with
  | nil => simpa [insortRight] using h
  | cons y ys ih =>
    simp only [insortRight] at h
    split at h
    · rcases List.mem_cons.1 h with h | h
      · exact Or.inl h
      · exact Or.inr h
    · rcases List.mem_cons.1 h with h | h
      · exact Or.inr (h ▸ List.mem_cons_self _ _)
      · rcases ih h with h | h
        · exact Or.inl h
        · exact Or.inr (List.mem_cons_of_mem _ h)

theorem sortedRules_insortRight {l : List RuleT} (x : RuleT)
    (h : SortedRules l) : SortedRules (insortRight l x) := by
  induction l with
  | nil => simp [SortedRules, insortRight]
  | cons y ys ih =>
    rcases List.pairwise_cons.1 h with ⟨hy, hys⟩
    by_cases hcase : Prio.ltB (rulePrio x) (rulePrio y) = true
    · rw [SortedRules, insortRight, if_pos hcase]
      refine List.pairwise_cons.2 ⟨?_, h⟩
      intro z hz
      rcases List.mem_cons.1 hz with h | h
      · exact h ▸ Prio.ltB_leB hcase
      · exact Prio.leB_trans (Prio.ltB_leB hcase) (hy z h)
    · rw [SortedRules, insortRight, if_neg hcase]
      refine List.pairwise_cons.2 ⟨?_, ih hys⟩
      intro z hz
      rcases mem_of_mem_insortRight hz with h | h
      · exact h ▸ Prio.not_ltB_leB (by simpa using hcase)
      · exact hy z h

/-- Stability of `insort_right` on a sorted list: the new rule lands
after every existing rule of priority ≤ its own (so equal-priority ties
keep registration order) and before every rule of strictly greater
priority. -/
theorem insortRight_split {l : List RuleT} (x : RuleT) (hs : SortedRules l) :
    ∃ l₁ l₂, insortRight l x = l₁ ++ x :: l₂ ∧ l = l₁ ++ l₂ ∧
      (∀ y ∈ l₁, Prio.ltB (rulePrio x) (rulePrio y) = false) ∧
      (∀ y ∈ l₂, Prio.ltB (rulePrio x) (rulePrio y) = true) := by
  induction l with
  | nil => exact ⟨[], [], by simp [insortRight]⟩
  | cons y ys ih =>
    rcases List.pairwise_cons.1 hs with ⟨hy, hys⟩
    by_cases hcase : Prio.ltB (rulePrio x) (rulePrio y) = true
    · refine ⟨[], y :: ys, by simp [insortRight, hcase], rfl, by simp, ?_⟩
      intro z hz
      rcases List.mem_cons.1 hz with h | h
      · exact h ▸ hcase
      · exact Prio.ltB_leB_trans hcase (hy z h)
    · obtain ⟨l₁, l₂, h1, h2, h3, h4⟩ := ih hys
      refine ⟨y :: l₁, l₂, ?_, by simp [h2], ?_, h4⟩
      · simp [insortRight, hcase, h1]
      · intro z hz
        rcases List.mem_cons.1 hz with h | h
        · simpa [h] using hcase
        · exact h3 z h

/-- Invariant preserved by any sequence of registrations of rules whose
priority is not +∞ (every rule a Pakefile can declare): the head, the
last element, and all members of the rule list survive. -/
theorem foldl_insortRight_inv (toAdd : List RuleT)
    (h : ∀ r ∈ toAdd, rulePrio r ≠ Prio.posInf) :
    ∀ acc : List RuleT, acc.head? = some RuleT.alwaysR →
      acc.getLast? = some RuleT.fallbackR →
      ((toAdd.foldl insortRight acc).head? = some RuleT.alwaysR ∧
       (toAdd.foldl insortRight acc).getLast? = some RuleT.fallbackR ∧
       ∀ y ∈ acc, y ∈ toAdd.foldl insortRight acc) := by
  induction toAdd with
  | nil => exact fun acc h1 h2 => ⟨h1, h2, fun y hy => hy⟩
  | cons r rs ih =>
    intro acc h1 h2
    have hr : rulePrio r ≠ Prio.posInf := h r (List.mem_cons_self _ _)
    have h1' : (insortRight acc r).head? = some RuleT.alwaysR :=
      insortRight_head? h1 (by rw [rulePrio]; exact Prio.ltB_negInf _)
    have h2' : (insortRight acc r).getLast? = some RuleT.fallbackR :=
      insortRight_getLast? h2 (by rw [rulePrio]; exact (Prio.ltB_posInf_iff _).2 hr)
    obtain ⟨g1, g2, g3⟩ := ih (fun x hx => h x (List.mem_cons_of_mem _ hx)) _ h1' h2'
    exact ⟨by simpa using g1, by simpa using g2,
      fun y hy => by simpa using g3 y (mem_insortRight_of_mem hy)⟩

/-- **C1.** From construction of a Registry, the implicit rules are
present in the registered-rules list and are never removed: construction
completes with exactly the implicit rules `[always, clean, fallback]`,
the always rule first and the fallback rule last, and after registering
any further rules of non-+∞ priority (every kind a Pakefile can declare)
the always rule is still first, the fallback rule still last, and all
three implicit rules are still present. -/
theorem c1_implicit_rules_present :
    registryInit = [RuleT.alwaysR, clean_rule, RuleT.fallbackR] ∧
    ∀ toAdd : List RuleT, (∀ r ∈ toAdd, rulePrio r ≠ Prio.posInf) →
      ((toAdd.foldl insortRight registryInit).head? = some RuleT.alwaysR ∧
       (toAdd.foldl insortRight registryInit).getLast? = some RuleT.fallbackR ∧
       RuleT.alwaysR ∈ toAdd.foldl insortRight registryInit ∧
       clean_rule ∈ toAdd.foldl insortRight registryInit ∧
       RuleT.fallbackR ∈ toAdd.foldl insortRight registryInit) := by
  have hinit : registryInit = [RuleT.alwaysR, clean_rule, RuleT.fallbackR] := rfl
  refine ⟨hinit, fun toAdd h => ?_⟩
  obtain ⟨g1, g2, g3⟩ := foldl_insortRight_inv toAdd h registryInit (by rw [hinit]; rfl)
    (by rw [hinit]; rfl)
  refine ⟨g1, g2, ?_, ?_, ?_⟩
  · exact g3 _ (by rw [hinit]; exact List.mem_cons_self _ _)
  · exact g3 _ (by rw [hinit]; simp)
  · exact g3 _ (by rw [hinit]; simp)

/-- Witness for C1: registering a user virtual rule and a user target
rule leaves always first, fallback last, and the implicit rules present. -/
theorem c1_implicit_rules_present_witness :
    ([RuleT.virt "build" [] (fun _ => RunOut.ok Value.null),
      RuleT.targetR "./out" (some "./out") [] (fun _ _ fs => .ok fs)].foldl
        insortRight registryInit).head? = some RuleT.alwaysR ∧
    ([RuleT.virt "build" [] (fun _ => RunOut.ok Value.null),
      RuleT.targetR "./out" (some "./out") [] (fun _ _ fs => .ok fs)].foldl
        insortRight registryInit).getLast? = some RuleT.fallbackR := by
  have h := (c1_implicit_rules_present.2
    [RuleT.virt "build" [] (fun _ => RunOut.ok Value.null),
     RuleT.targetR "./out" (some "./out") [] (fun _ _ fs => .ok fs)]
    (by
      intro r hr
      rcases List.mem_cons.1 hr with h | hr
      · rw [h]; simp [rulePrio]
      · rcases List.mem_cons.1 hr with h | hr
        · rw [h]; simp [rulePrio]
        · cases hr))
  exact ⟨h.1, h.2.1⟩

/-! ## Resolution (registry.py lines 130-139) -/

theorem resolveReg_cons_some {cwd : List String} {r : RuleT} {rs : List RuleT}
    {t : String} {tok : Tok} (h : ruleMatch cwd r t = some tok) :
    resolveReg cwd (r :: rs) t = some (r, tok) := by
  simp [resolveReg, h]

theorem resolveReg_cons_none {cwd : List String} {r : RuleT} {rs : List RuleT}
    {t : String} (h : ruleMatch cwd r t = none) :
    resolveReg cwd (r :: rs) t = resolveReg cwd rs t := by
  simp [resolveReg, h]

/-- `FallbackRule.match` never returns `None` (rules.py lines 218-224). -/
theorem fallback_match_total (cwd : List String) (t : String) :
    (ruleMatch cwd RuleT.fallbackR t).isSome = true := by
  rw [ruleMatch]
  cases normalizePath cwd t <;> simp

theorem resolveReg_isSome_of_fallback_mem {cwd : List String} {rs : List RuleT}
    {t : String} (h : RuleT.fallbackR ∈ rs) : (resolveReg cwd rs t).isSome = true := by
  induction rs with
  | nil => cases h
  | cons r rest ih =>
    rw [resolveReg]
    cases hm : ruleMatch cwd r t with
    | some tok => simp
    | none =>
      rcases List.mem_cons.1 h with h | h
      · subst h
        have := fallback_match_total cwd t
        rw [hm] at this
        cases this
      · exact ih h

theorem resolveReg_eq_some_iff {cwd : List String} {rs : List RuleT} {t : String}
    {r : RuleT} {tok : Tok} :
    resolveReg cwd rs t = some (r, tok) ↔
      ∃ l₁ l₂, rs = l₁ ++ r :: l₂ ∧ ruleMatch cwd r t = some tok ∧
        ∀ r' ∈ l₁, ruleMatch cwd r' t = none := by
  constructor
  · intro h
    induction rs with
    | nil => cases h
    | cons r' rest ih =>
      rw [resolveReg] at h
      cases hm : ruleMatch cwd r' t with
      | some tok' =>
        rw [hm] at h
        injection h with h
        injection h with h1 h2
        subst h1; subst h2
        exact ⟨[], rest, rfl, hm, by simp⟩
      | none =>
        rw [hm] at h
        obtain ⟨l₁, l₂, g1, g2, g3⟩ := ih h
        refine ⟨r' :: l₁, l₂, by rw [g1, List.cons_append], g2, ?_⟩
        intro x hx
        rcases List.mem_cons.1 hx with h' | h'
        · exact h' ▸ hm
        · exact g3 x h'
  · rintro ⟨l₁, l₂, rfl, h2, h3⟩
    induction l₁ with
    | nil => exact resolveReg_cons_some h2
    | cons r'' l₁' ih =>
      rw [List.cons_append, resolveReg_cons_none (h3 r'' (List.mem_cons_self _ _))]
      exact ih (fun x hx => h3 x (List.mem_cons_of_mem _ hx))

theorem foldl_insortRight_sorted (toAdd : List RuleT) :
    ∀ acc : List RuleT, SortedRules acc → SortedRules (toAdd.foldl insortRight acc) := by
  induction toAdd with
  | nil => exact fun acc h => h
  | cons r rs ih => exact fun acc h => ih _ (sortedRules_insortRight r h)

/-- **C5.** `resolve(target)` returns the first rule in the registry's
list order whose `match` returns non-None, paired with that match token
(first conjunct, both directions); the fallback rule guarantees some
rule always matches, so resolve always returns (second conjunct); and
the registry's list order is non-decreasing in priority with ties broken
by earliest registration: any registry built by registrations from
construction is sorted, and each insertion lands after all rules of
priority ≤ its own and before all strictly greater ones (last two
conjuncts). -/
theorem c5_resolve_deterministic :
    (∀ (cwd : List String) (rs : List RuleT) (t : String) (r : RuleT) (tok : Tok),
      resolveReg cwd rs t = some (r, tok) ↔
        ∃ l₁ l₂, rs = l₁ ++ r :: l₂ ∧ ruleMatch cwd r t = some tok ∧
          ∀ r' ∈ l₁, ruleMatch cwd r' t = none) ∧
    (∀ (cwd : List String) (rs : List RuleT) (t : String),
      RuleT.fallbackR ∈ rs → (resolveReg cwd rs t).isSome = true) ∧
    (∀ toAdd : List RuleT, SortedRules (toAdd.foldl insortRight registryInit)) ∧
    (∀ (l : List RuleT) (x : RuleT), SortedRules l →
      ∃ l₁ l₂, insortRight l x = l₁ ++ x :: l₂ ∧ l = l₁ ++ l₂ ∧
        (∀ y ∈ l₁, Prio.ltB (rulePrio x) (rulePrio y) = false) ∧
        (∀ y ∈ l₂, Prio.ltB (rulePrio x) (rulePrio y) = true)) := by
  refine ⟨fun _ _ _ _ _ => resolveReg_eq_some_iff,
    fun _ _ _ h => resolveReg_isSome_of_fallback_mem h,
    fun toAdd => foldl_insortRight_sorted toAdd registryInit ?_,
    fun l x hs => insortRight_split x hs⟩
  rw [SortedRules]
  refine List.pairwise_cons.2 ⟨?_, List.pairwise_cons.2 ⟨?_, List.pairwise_singleton _ _⟩⟩
  · intro b hb
    rcases List.mem_cons.1 hb with h | hb
    · rw [h]; rfl
    · rcases List.mem_cons.1 hb with h | hb
      · rw [h]; rfl
      · cases hb
  · intro b hb
    rcases List.mem_cons.1 hb with h | hb
    · rw [h]; rfl
    · cases hb

/-- Witness for C5: the fallback alone resolves an otherwise unmatched
target, and the first-match characterization holds on a concrete
registry. -/
theorem c5_resolve_deterministic_witness :
    (resolveReg [] [RuleT.alwaysR, RuleT.fallbackR] "somefile").isSome = true := by
  exact c5_resolve_deterministic.2.1 [] [RuleT.alwaysR, RuleT.fallbackR] "somefile"
    (List.mem_cons_of_mem _ (List.mem_singleton.2 rfl))

theorem lookup_isSome_eq_contains (d : Inputs) (k : String) :
    (d.lookup k).isSome = (keysOf d).contains k := by
  induction d with
  | nil => rfl
  | cons p rest ih =>
    rw [keysOf, List.map_cons, List.contains_cons, List.lookup_cons]
    cases h : k == p.1 with
    | true => simp [h]
    | false => simpa [h, keysOf] using ih

/-- **C3 (counterexample).** A prior record exists and `always` is a key
of the new inputs, yet `Registry.needs_update` reports up to date
(`None`), where the claim's ordering demands a "depends on always"
reason: the code tests `old_inputs == inputs` first (registry.py line
154). -/
theorem c3_needs_update_counterexample :
    (c3State.lookup "t").isSome = true ∧
    (c3Inputs.lookup "always").isSome = true ∧
    registryNeedsUpdate c3State "t" c3Inputs = none ∧
    needsUpdateSpecClaim c3State "t" c3Inputs = some "it depends on the always target" := by
  refine ⟨rfl, rfl, ?_, ?_⟩ <;> rfl

/-- **C3 (amended).** `Registry.needs_update` returns: a "not cached"
reason when no prior record exists; no reason (up to date) when the new
inputs equal the stored inputs as dicts — even when `always` is a key;
otherwise a "depends on always" reason when `always` is a key of the new
inputs; otherwise a "dependency list changed" reason when the key sets
differ; otherwise a reason listing exactly the keys whose values differ. -/
theorem c3_needs_update_amended (st : StateData) (target : String) (inputs : Inputs) :
    registryNeedsUpdate st target inputs = needsUpdateSpecAmended st target inputs := by
  rw [registryNeedsUpdate, needsUpdateSpecAmended]
  cases st.lookup target with
  | none => rfl
  | some record =>
    simp only [lookup_isSome_eq_contains]
    by_cases h1 : dictEqB record.inputs inputs = true
    · simp [h1]
    · by_cases h2 : "always" ∈ keysOf inputs
      · simp [h1, h2]
      · by_cases h3 : sameKeySet record.inputs inputs = true
        · simp [h1, h2, h3, keysOf]
        · simp [h1, h2, h3, keysOf]

/-- **C2.** The claimed rebuild modes are not implemented: (1) the
keyword call `rule.update(match, rebuild=rebuild)` made by
`Registry.update` does not bind against `Rule.update`'s parameters
(`self, match, force, _target_chain`), so every `Registry.update` call
raises `TypeError` regardless of mode; and (2-3) the only force
mechanism `Rule.update` has is `force`, which propagates to recursive
dep updates unconditionally — on a fully cached chain `a → b` an
unforced update runs no recipe, while a forced update of `a` re-runs
the dependency `b` as well (deep behaviour; there is no non-propagating
shallow force). -/
theorem c2_rebuild_mode_unimplemented :
    bindsOk ruleUpdateParamNames registryUpdateCallKeywords = false ∧
    (update [] c2Reg 5 c2World "a" false []).1 = [] ∧
    (update [] c2Reg 5 c2World "a" true []).1 = ["b", "a"] := by
  refine ⟨rfl, ?_, ?_⟩ <;> rfl

theorem resolveReg_append_of_some {cwd : List String} {l l' : List RuleT}
    {t : String} {r : RuleT × Tok} (h : resolveReg cwd l t = some r) :
    resolveReg cwd (l ++ l') t = some r := by
  induction l with
  | nil => cases h
  | cons a as ih =>
    rw [List.cons_append, resolveReg]
    rw [resolveReg] at h
    cases hm : ruleMatch cwd a t with
    | some tok => rw [hm] at h; simpa using h
    | none => rw [hm] at h; simpa using ih h

theorem resolveReg_chainVirts (cwd : List String) (first : String)
    (rcp : String → VirtRecipe) :
    ∀ (pre : List String) (x : String) (xs : List String),
      (pre ++ x :: xs).Nodup →
      resolveReg cwd (chainVirts first rcp (pre ++ x :: xs)) x =
        some (RuleT.virt x [cnext first xs] (rcp x), Tok.mstr x) := by
  intro pre
  induction pre with
  | nil =>
    intro x xs _
    cases xs with
    | nil => simp [chainVirts, resolveReg, ruleMatch, cnext]
    | cons y rest => simp [chainVirts, resolveReg, ruleMatch, cnext]
  | cons p pre' ih =>
    intro x xs hnd
    have hnd' : (p :: (pre' ++ x :: xs)).Nodup := by simpa using hnd
    rcases List.nodup_cons.1 hnd' with ⟨hmem, htail⟩
    have hpx : p ≠ x := by
      intro h
      refine hmem ?_
      rw [h]
      exact List.mem_append_right _ (List.mem_cons_self _ _)
    cases pre' with
    | nil =>
      show resolveReg cwd (chainVirts first rcp (p :: x :: xs)) x = _
      rw [chainVirts, resolveReg_cons_none (by simp [ruleMatch, hpx])]
      exact ih x xs (by simpa using htail)
    | cons q pre'' =>
      show resolveReg cwd (chainVirts first rcp (p :: q :: (pre'' ++ x :: xs))) x = _
      rw [chainVirts, resolveReg_cons_none (by simp [ruleMatch, hpx])]
      exact ih x xs (by simpa using htail)

theorem resolveReg_chainReg (cwd : List String) (first : String)
    (rcp : String → VirtRecipe) {names : List String} (pre : List String)
    (x : String) (xs : List String) (hdec : names = pre ++ x :: xs)
    (hnd : names.Nodup) (hx : x ≠ "always") :
    resolveReg cwd (chainReg first rcp names) x =
      some (RuleT.virt x [cnext first xs] (rcp x), Tok.mstr x) := by
  subst hdec
  rw [chainReg, resolveReg_cons_none (by simp [ruleMatch, hx])]
  exact resolveReg_append_of_some (resolveReg_chainVirts cwd first rcp pre x xs hnd)

/-- The inductive core of cycle detection: updating the member of the
cycle whose successors are `xs`, with the ancestor chain holding the
members already visited, fails with the full-cycle build error, leaves
the world untouched, and runs no recipe. -/
theorem c4_cycle_aux (cwd : List String) (first : String)
    (rcp : String → VirtRecipe) (names : List String) (hnd : names.Nodup)
    (ha : "always" ∉ names) (hh : names.head? = some first) :
    ∀ (xs pre : List String) (x : String) (fuel : Nat) (w : World),
      names = pre ++ x :: xs → xs.length + 2 ≤ fuel →
      update cwd (chainReg first rcp names) fuel w x false pre =
        ([], w, .error ⟨names ++ [first], "Dependency cycle detected", none⟩) := by
  obtain ⟨tl, htl⟩ : ∃ tl, names = first :: tl := by
    cases names with
    | nil => cases hh
    | cons a as =>
      refine ⟨as, ?_⟩
      rw [List.head?_cons, Option.some.injEq] at hh
      rw [hh]
  have hfa : first ≠ "always" := by
    intro h
    exact ha (h ▸ htl ▸ List.mem_cons_self _ _)
  intro xs
  induction xs with
  | nil =>
    intro pre x fuel w hdec hfuel
    have hxa : x ≠ "always" := by
      intro h
      exact ha (h ▸ hdec ▸ List.mem_append_right _ (List.mem_cons_self _ _))
    have hxpre : x ∉ pre := fun hmem =>
      (List.disjoint_of_nodup_append (hdec ▸ hnd)) hmem (List.mem_cons_self _ _)
    have hres := resolveReg_chainReg cwd first rcp pre x [] hdec hnd hxa
    have hres2 := resolveReg_chainReg cwd first rcp [] first tl htl hnd hfa
    have hfmem : first ∈ pre ++ [x] := by
      rw [← hdec, htl]
      exact List.mem_cons_self _ _
    cases fuel with
    | zero => omega
    | succ f =>
      cases f with
      | zero => omega
      | succ f' =>
        rw [update, hres]
        simp only [ruleTarget, ruleDeps, cnext, if_neg hxpre]
        rw [updateDepsAux, update, hres2]
        simp only [ruleTarget, if_pos hfmem]
        rw [← hdec]
  | cons y xs' ih =>
    intro pre x fuel w hdec hfuel
    have hxa : x ≠ "always" := by
      intro h
      exact ha (h ▸ hdec ▸ List.mem_append_right _ (List.mem_cons_self _ _))
    have hxpre : x ∉ pre := fun hmem =>
      (List.disjoint_of_nodup_append (hdec ▸ hnd)) hmem (List.mem_cons_self _ _)
    have hres := resolveReg_chainReg cwd first rcp pre x (y :: xs') hdec hnd hxa
    cases fuel with
    | zero => omega
    | succ f =>
      have hinner := ih (pre ++ [x]) y f w
        (by rw [hdec, List.append_cons pre x (y :: xs')]) (by simp at hfuel ⊢; omega)
      rw [update, hres]
      simp only [ruleTarget, ruleDeps, cnext, if_neg hxpre]
      rw [updateDepsAux, hinner]

/-- **C4.** For every rule set in which `R₁` depends on `R₂`, `R₂` on
`R₃`, and so on until `Rₙ` depends back on `R₁` (arbitrary distinct
names not capturing the implicit `always`, arbitrary recipes), updating
`R₁` fails with a build error whose target chain is the full chain from
the originally requested target to the repeated one
(`[R₁, …, Rₙ, R₁]`), no recipe is run (empty run log) and the world is
untouched. -/
theorem c4_cycle_build_error (cwd : List String) (rcp : String → VirtRecipe)
    (first : String) (rest : List String) (hnd : (first :: rest).Nodup)
    (ha : "always" ∉ first :: rest) (fuel : Nat)
    (hfuel : rest.length + 2 ≤ fuel) (w : World) :
    update cwd (chainReg first rcp (first :: rest)) fuel w first false [] =
      ([], w, .error ⟨(first :: rest) ++ [first], "Dependency cycle detected", none⟩) :=
  c4_cycle_aux cwd first rcp (first :: rest) hnd ha rfl rest [] first fuel w rfl hfuel

/-- Witness for C4: the three-rule cycle `a → b → c → a` fails with
chain `a → b → c → a`, running nothing. -/
theorem c4_cycle_build_error_witness :
    update [] (chainReg "a" (fun _ => fun _ => RunOut.ok Value.null) ["a", "b", "c"])
        4 ⟨[], fun _ => none, 0⟩ "a" false [] =
      ([], ⟨[], fun _ => none, 0⟩,
        .error ⟨["a", "b", "c", "a"], "Dependency cycle detected", none⟩) :=
  c4_cycle_build_error [] (fun _ => fun _ => RunOut.ok Value.null) "a" ["b", "c"]
    (by decide) (by decide) 4 (by decide) ⟨[], fun _ => none, 0⟩

/-! ## Verbatim input keys and dep ordering (C6) -/

theorem updateDepsAux_keys (f : World → String → UpdOut) :
    ∀ (ds : List String) (w : World) (dlog : List String) (w1 : World)
      (inps : Inputs), updateDepsAux f ds w = (dlog, w1, .ok inps) →
      inps.map Prod.fst = ds := by
  intro ds
  induction ds with
  | nil =>
    intro w dlog w1 inps h
    rw [updateDepsAux] at h
    simp only [Prod.mk.injEq] at h
    rcases h with ⟨-, -, h3⟩
    cases h3
    rfl
  | cons d ds' ih =>
    intro w dlog w1 inps h
    rw [updateDepsAux] at h
    rcases hf : f w d with ⟨l1, w1', r1⟩
    rw [hf] at h
    cases r1 with
    | error e => simp at h
    | ok v =>
      dsimp only at h
      rcases hrec : updateDepsAux f ds' w1' with ⟨l2, w2, r2⟩
      rw [hrec] at h
      cases r2 with
      | error e => simp at h
      | ok inps' =>
        dsimp only at h
        simp only [Prod.mk.injEq] at h
        rcases h with ⟨-, -, h3⟩
        cases h3
        rw [List.map_cons, ih w1' l2 w2 inps' hrec]

/-- **C6.** During `Rule.update`, the inputs mapping recorded in the
state and passed to the recipe is keyed by the verbatim dependency
strings the rule declared in declared order (first conjunct: the
collected dict's keys are exactly `deps(match)`), and each dependency is
resolved and recursively updated before the rule's own staleness check
and run (second conjunct: whenever the staleness decision then says
update and the recipe returns a result, the run log is the dependency
log followed by the target, the recipe receives exactly the collected
inputs, and the saved record stores those same inputs). -/
theorem c6_verbatim_inputs (cwd : List String) (reg : List RuleT) (fuel : Nat)
    (w : World) (t : String) (force : Bool) (chain : List String)
    (r : RuleT) (tok : Tok)
    (hres : resolveReg cwd reg t = some (r, tok))
    (hnc : ruleTarget tok ∉ chain)
    (dlog : List String) (w1 : World) (inps : Inputs)
    (hdeps : updateDepsAux
        (fun w' d => update cwd reg fuel w' d force (chain ++ [ruleTarget tok]))
        (ruleDeps r) w = (dlog, w1, .ok inps)) :
    inps.map Prod.fst = ruleDeps r ∧
    ∀ (w2 : World) (v : Value),
      (force || (registryNeedsUpdate w1.st (ruleTarget tok) inps).isSome
        || ruleNeedsSelfUpdate w1.fs r tok (getResult w1.st (ruleTarget tok))) = true →
      ruleRun r tok inps w1 = (w2, .ok v) →
      update cwd reg (fuel + 1) w t force chain =
        (dlog ++ [ruleTarget tok],
         { w2 with st := saveResult w2.st (ruleTarget tok) inps v },
         .ok (getResult (saveResult w2.st (ruleTarget tok) inps v) (ruleTarget tok))) := by
  refine ⟨updateDepsAux_keys _ _ w dlog w1 inps hdeps, ?_⟩
  intro w2 v hneeds hrun
  rw [update, hres]
  dsimp only
  rw [if_neg hnc, hdeps]
  dsimp only
  rw [hneeds, if_pos rfl, hrun]

/-- Witness for C6: the rule `v` declares dep `x//y/../z`; the recorded
inputs are keyed by that verbatim string (not the canonical `./x/z`),
the dep (resolved through the fallback rule) is updated first, and the
saved record holds the verbatim-keyed inputs. -/
theorem c6_verbatim_inputs_witness :
    [("x//y/../z", Value.str "h1")].map Prod.fst = ruleDeps c6Rule ∧
    update [] c6Reg 5 ⟨[], c6FS, 0⟩ "v" false [] =
      (["./x/z", "v"],
       ⟨[("./x/z", ⟨[], Value.str "h1"⟩),
         ("v", ⟨[("x//y/../z", Value.str "h1")], Value.str "r"⟩)], c6FS, 0⟩,
       .ok (Value.str "r")) := by
  have h := c6_verbatim_inputs [] c6Reg 4 ⟨[], c6FS, 0⟩ "v" false []
    c6Rule (Tok.mstr "v") rfl (by simp [ruleTarget])
    ["./x/z"] ⟨[("./x/z", ⟨[], Value.str "h1"⟩)], c6FS, 0⟩
    [("x//y/../z", Value.str "h1")] rfl
  exact ⟨h.1, h.2 ⟨[("./x/z", ⟨[], Value.str "h1"⟩)], c6FS, 0⟩ (Value.str "r") rfl rfl⟩

/-! ## Fallback rule contract (C7) -/

/-- **C7.** `FallbackRule.match` always returns a token, of the form
(canonical target, no error) when normalization succeeds and (raw
target, the error) when it fails; `FallbackRule.run` raises a rule-error
saying the target is not a valid filepath and no rule of that name
exists when the token carries a normalization error, raises a
rule-error when the file does not exist, and otherwise returns the
file's hash. -/
theorem c7_fallback_match_run (cwd : List String) (t : String) (w : World)
    (inps : Inputs) :
    (∃ tok, ruleMatch cwd RuleT.fallbackR t = some tok) ∧
    (∀ p, normalizePath cwd t = .ok p →
      ruleMatch cwd RuleT.fallbackR t = some (Tok.mfall p none)) ∧
    (∀ e, normalizePath cwd t = .error e →
      ruleMatch cwd RuleT.fallbackR t = some (Tok.mfall t (some e))) ∧
    (∀ tgt e : String,
      ruleRun RuleT.fallbackR (Tok.mfall tgt (some e)) inps w =
        (w, .ruleError (pyRepr tgt ++ " is not a valid filepath (" ++ e ++
          ") and no rule by that name exists"))) ∧
    (∀ tgt : String, w.fs tgt = none →
      ruleRun RuleT.fallbackR (Tok.mfall tgt none) inps w =
        (w, .ruleError "File does not exist and there is no rule to create it")) ∧
    (∀ (tgt h : String), w.fs tgt = some h →
      ruleRun RuleT.fallbackR (Tok.mfall tgt none) inps w =
        (w, .ok (Value.str h))) := by
  refine ⟨?_, ?_, ?_, ?_, ?_, ?_⟩
  · cases hn : normalizePath cwd t with
    | ok p => exact ⟨Tok.mfall p none, by simp [ruleMatch, hn]⟩
    | error e => exact ⟨Tok.mfall t (some e), by simp [ruleMatch, hn]⟩
  · intro p hp
    simp [ruleMatch, hp]
  · intro e he
    simp [ruleMatch, he]
  · intro tgt e
    rfl
  · intro tgt h
    simp [ruleRun, h]
  · intro tgt h hh
    simp [ruleRun, hh]

/-- Witness for C7: with cwd `/home`, the invalid target `../x` gets the
(raw, error) token and its run raises the not-a-valid-filepath
rule-error; an existing file's token hashes, a missing one errors. -/
theorem c7_fallback_match_run_witness :
    ruleMatch ["home"] RuleT.fallbackR "../x" =
      some (Tok.mfall "../x" (some "cannot be outside current directory")) ∧
    ruleRun RuleT.fallbackR (Tok.mfall "../x" (some "cannot be outside current directory"))
        [] ⟨[], fun s => if s = "./f" then some "abc" else none, 0⟩ =
      (⟨[], fun s => if s = "./f" then some "abc" else none, 0⟩,
       .ruleError "'../x' is not a valid filepath (cannot be outside current directory) and no rule by that name exists") ∧
    ruleRun RuleT.fallbackR (Tok.mfall "./f" none) []
        ⟨[], fun s => if s = "./f" then some "abc" else none, 0⟩ =
      (⟨[], fun s => if s = "./f" then some "abc" else none, 0⟩, .ok (Value.str "abc")) ∧
    ruleRun RuleT.fallbackR (Tok.mfall "./g" none) []
        ⟨[], fun s => if s = "./f" then some "abc" else none, 0⟩ =
      (⟨[], fun s => if s = "./f" then some "abc" else none, 0⟩,
       .ruleError "File does not exist and there is no rule to create it") := by
  have h := c7_fallback_match_run ["home"] "../x"
    ⟨[], fun s => if s = "./f" then some "abc" else none, 0⟩ []
  refine ⟨h.2.2.1 "cannot be outside current directory" rfl, ?_, ?_, ?_⟩
  · exact h.2.2.2.1 "../x" "cannot be outside current directory"
  · exact h.2.2.2.2.2 "./f" "abc" rfl
  · exact h.2.2.2.2.1 "./g" rfl

/-! ## Recipe exception wrapping (C8) -/

/-- **C8.** When the recipe invoked by `Rule.update` raises: a
rule-error raised deliberately by the recipe is wrapped into a
build-error tagged with the ancestor target chain carrying only the
message with no cause attached (`raise ... from None`, rules.py line
168), while any other exception becomes a build-error tagged with the
chain with the original exception attached as cause (rules.py lines
169-171).  Stated for a dependency-free virtual rule that is not yet
cached, so its recipe runs. -/
theorem c8_recipe_error_wrapping (cwd : List String) (reg : List RuleT)
    (fuel : Nat) (w : World) (t : String) (chain : List String)
    (nm s : String) (rcp : VirtRecipe)
    (hres : resolveReg cwd reg t = some (RuleT.virt nm [] rcp, Tok.mstr s))
    (hnc : s ∉ chain) (hcache : w.st.lookup s = none) :
    (∀ m, rcp [] = .ruleError m →
      update cwd reg (fuel + 1) w t false chain =
        ([], w, .error ⟨chain ++ [s], m, none⟩)) ∧
    (∀ m, rcp [] = .exc m →
      update cwd reg (fuel + 1) w t false chain =
        ([], w, .error ⟨chain ++ [s], "Recipe raised exception", some m⟩)) := by
  constructor <;>
  · intro m hm
    rw [update, hres]
    dsimp only [ruleTarget, ruleDeps]
    rw [if_neg hnc, updateDepsAux]
    dsimp only
    rw [registryNeedsUpdate, hcache]
    simp [ruleRun, hm]

/-- Witness for C8: a recipe raising `RuleError("boom")` yields the
build error `(chain ["job"], "boom", no cause)`; one raising
`KeyError("k")` yields `(chain ["job"], "Recipe raised exception",
cause "KeyError: k")`. -/
theorem c8_recipe_error_wrapping_witness :
    update [] [RuleT.virt "job" [] (fun _ => RunOut.ruleError "boom")] 3
        ⟨[], fun _ => none, 0⟩ "job" false [] =
      ([], ⟨[], fun _ => none, 0⟩, .error ⟨["job"], "boom", none⟩) ∧
    update [] [RuleT.virt "job" [] (fun _ => RunOut.exc "KeyError: k")] 3
        ⟨[], fun _ => none, 0⟩ "job" false [] =
      ([], ⟨[], fun _ => none, 0⟩,
        .error ⟨["job"], "Recipe raised exception", some "KeyError: k"⟩) := by
  constructor
  · exact (c8_recipe_error_wrapping [] [RuleT.virt "job" [] (fun _ => RunOut.ruleError "boom")]
      2 ⟨[], fun _ => none, 0⟩ "job" [] "job" "job" (fun _ => RunOut.ruleError "boom")
      rfl (by simp) rfl).1 "boom" rfl
  · exact (c8_recipe_error_wrapping [] [RuleT.virt "job" [] (fun _ => RunOut.exc "KeyError: k")]
      2 ⟨[], fun _ => none, 0⟩ "job" [] "job" "job" (fun _ => RunOut.exc "KeyError: k")
      rfl (by simp) rfl).2 "KeyError: k" rfl

/-! ## TargetRule declaration side effect (C9) -/

/-- **C9.** For every filepath that fails normalization, constructing a
`TargetRule` raises `ValueError` — but only after the partially
initialized rule (raw name, no `filepath` attribute) has already been
inserted into the registry's rule list: the registry is mutated even
though the declaration fails. -/
theorem c9_target_rule_registered_despite_error (cwd : List String)
    (reg : List RuleT) (fp : String) (deps : List String) (rcp : FileRecipe)
    (e : String) (hnorm : normalizePath cwd fp = .error e) :
    (TargetRule_init cwd reg fp deps rcp).2 =
      .error ("Invalid filepath for target rule: " ++ e) ∧
    (TargetRule_init cwd reg fp deps rcp).1 =
      insortRight reg (RuleT.targetR fp none deps rcp) ∧
    RuleT.targetR fp none deps rcp ∈ (TargetRule_init cwd reg fp deps rcp).1 := by
  refine ⟨?_, ?_, ?_⟩
  · rw [TargetRule_init, hnorm]
  · rw [TargetRule_init, hnorm]
  · rw [TargetRule_init, hnorm]
    exact self_mem_insortRight _ _

/-- Witness for C9: declaring `target("")` fails with the empty-string
`ValueError` yet leaves the partially initialized rule registered. -/
theorem c9_target_rule_registered_despite_error_witness :
    (TargetRule_init ["home"] registryInit "" [] (fun _ _ fs => .ok fs)).2 =
      .error "Invalid filepath for target rule: cannot be empty string" ∧
    RuleT.targetR "" none [] (fun _ _ fs => .ok fs) ∈
      (TargetRule_init ["home"] registryInit "" [] (fun _ _ fs => .ok fs)).1 := by
  have h := c9_target_rule_registered_despite_error ["home"] registryInit ""
    [] (fun _ _ fs => .ok fs) "cannot be empty string" rfl
  exact ⟨h.1, h.2.2⟩

/-! ## `get_result` conflates a `None` result with never built (C10) -/

/-- **C10.** `Registry.get_result(target)` returns `None` both when the
target has no stored record and when its stored record's result is
`None`; `Rule.update` passes exactly `get_result`'s value as the prior
result to the rule's `needs_update` check (rules.py lines 161-162, the
`result` fed to `self.needs_update` is `registry.get_result(target)` as
embedded in `update`), so a cached result of `None` is indistinguishable
from never-built at this interface. -/
theorem c10_get_result_conflates_null (st1 st2 : StateData) (t : String)
    (record : Rec) (h1 : st1.lookup t = none) (h2 : st2.lookup t = some record)
    (h3 : record.result = Value.null) :
    getResult st1 t = Value.null ∧ getResult st2 t = getResult st1 t := by
  constructor
  · rw [getResult, h1]
  · rw [getResult, getResult, h1, h2]
    dsimp only
    rw [h3]

/-- Witness for C10: the empty state and a state holding `("tag", result
None)` both report `None` for `tag`. -/
theorem c10_get_result_conflates_null_witness :
    getResult [] "tag" = Value.null ∧
    getResult [("tag", ⟨[("always", Value.str "u")], Value.null⟩)] "tag" =
      getResult [] "tag" :=
  c10_get_result_conflates_null [] [("tag", ⟨[("always", Value.str "u")], Value.null⟩)]
    "tag" ⟨[("always", Value.str "u")], Value.null⟩ rfl rfl rfl

end Pake
